import Mathlib

/-!
Verification development for the `loop` terminal text editor.

The Rust sources (`src/row.rs`, `src/editor.rs`, `src/main.rs`) are embedded
shallowly: a Rust `String` becomes a `List Char` (a sequence of Unicode scalar
values), byte offsets are computed from the UTF-8 size of each scalar, and the
`unicode-segmentation` crate's extended-grapheme-cluster iterator is modelled by
`graphemeSegments` on the fragment of Unicode the development exercises
(combining marks U+0300..U+036F extend the preceding cluster, every other
scalar starts a cluster of its own; this is exactly UAX #29 restricted to an
alphabet of non-special scalars plus Extend-class combining marks).

Fallible Rust code (panics such as `Option::unwrap` or `String::truncate` off a
char boundary) is embedded as `Option`-returning functions, `none` standing for
the panic.  The `Document` type lives in `src/document.rs`, which is not part of
the provided sources; it is modelled from the specification where noted.
-/

namespace Loop

/-- Model of the Extend-class characters used in this development: the
combining diacritical marks block U+0300..U+036F. -/
def isCombining (c : Char) : Bool :=
  decide (0x300 ≤ c.toNat ∧ c.toNat ≤ 0x36F)

/-- Model of `unicode-segmentation`'s `graphemes(true)` on the fragment of
Unicode described in the file header: walking from the left, a combining mark
joins the cluster of the preceding scalar, any other scalar opens a new
cluster.  The result is the list of clusters, in order. -/
def graphemeSegments : List Char → List (List Char)
  | [] => []
  | c :: rest =>
    match graphemeSegments rest with
    | [] => [[c]]
    | [] :: segs => [c] :: segs
    | (d :: ds) :: segs =>
      if isCombining d then (c :: d :: ds) :: segs else [c] :: (d :: ds) :: segs

/-- UTF-8 byte length of a character sequence, matching Rust's `str::len`. -/
def utf8Len (s : List Char) : Nat := (s.map Char.utf8Size).sum

/-- Model of Rust's `str::find`: byte offset of the first occurrence of `q` as
a contiguous substring of `s` (UTF-8 is self-synchronizing, so every byte-level
match of a valid-UTF-8 needle is scalar-aligned). -/
def strFind : List Char → List Char → Option Nat
  | [], q => if q.isPrefixOf ([] : List Char) then some 0 else none
  | c :: rest, q =>
    if q.isPrefixOf (c :: rest) then some 0
    else (strFind rest q).map (fun n => n + c.utf8Size)

/-- Byte offsets at which each cluster of a segmented string starts, matching
the first components produced by `grapheme_indices(true)`. -/
def graphemeByteOffsets : List (List Char) → Nat → List Nat
  | [], _ => []
  | seg :: segs, acc => acc :: graphemeByteOffsets segs (acc + utf8Len seg)

/-- `highlighting::Type` from `src/highlighting.rs` (referenced by `Row`). -/
inductive Highlighting where
  | none
  | number
  deriving DecidableEq

/-- `Row` from `src/row.rs`: the raw text, the per-character highlight
sequence, and the cached grapheme count. -/
structure Row where
  string : List Char
  highlighting : List Highlighting
  len : Nat
  deriving DecidableEq

/-- `Row::update_len`: recompute the cached grapheme count of the content. -/
def Row.update_len (r : Row) : Row :=
  { r with len := (graphemeSegments r.string).length }

/-- `impl From<&str> for Row` (named `fromStr` because `from` is reserved). -/
def Row.fromStr (slice : List Char) : Row :=
  Row.update_len { string := slice, highlighting := [], len := 0 }

/-- `Row::insert`: append when `at` is at or past the cached length, otherwise
rebuild the content as the first `at` clusters, the character, then the
remaining clusters; recompute the cached length. -/
def Row.insert (r : Row) (at_ : Nat) (c : Char) : Row :=
  if at_ ≥ r.len then
    Row.update_len { r with string := r.string ++ [c] }
  else
    Row.update_len { r with string :=
      ((graphemeSegments r.string).take at_).flatten
        ++ [c] ++ ((graphemeSegments r.string).drop at_).flatten }

/-- `Row::delete`: return unchanged when `at` is at or past the cached length,
otherwise drop cluster `at` and recompute the cached length. -/
def Row.delete (r : Row) (at_ : Nat) : Row :=
  if at_ ≥ r.len then r
  else
    Row.update_len { r with string :=
      ((graphemeSegments r.string).take at_).flatten
        ++ ((graphemeSegments r.string).drop (at_ + 1)).flatten }

/-- `Row::append`: concatenate the other row's content and recompute. -/
def Row.append (r : Row) (new : Row) : Row :=
  Row.update_len { r with string := r.string ++ new.string }

/-- `Row::split`: truncate to the first `at` clusters and return (also) a new
row built from the remaining clusters. -/
def Row.split (r : Row) (at_ : Nat) : Row × Row :=
  ( Row.update_len { r with string := ((graphemeSegments r.string).take at_).flatten }
  , Row.fromStr (((graphemeSegments r.string).drop at_).flatten) )

/-- `Row::find`: byte-search the whole content for `query`, then walk the
cluster start offsets of the suffix beginning at cluster `after`, returning the
position of the cluster whose offset (within that suffix) equals the byte index
found in the whole content. -/
def Row.find (r : Row) (query : List Char) (after : Nat) : Option Nat :=
  let substring := ((graphemeSegments r.string).drop after).flatten
  match strFind r.string query with
  | Option.none => Option.none
  | some matching_byte_index =>
    List.findIdx? (fun b => b = matching_byte_index)
      (graphemeByteOffsets (graphemeSegments substring) 0)

/-- The cached length of a row agrees with the true cluster count. -/
def lenValid (r : Row) : Prop :=
  r.len = (graphemeSegments r.string).length

instance (r : Row) : Decidable (lenValid r) := by
  unfold lenValid; infer_instance

/-- Specification-side counterpart of `Row::find`, following the spec's words:
the grapheme index of the first occurrence of `query` at or after grapheme
offset `after`, `none` when there is no such occurrence. -/
def rowFindSpec (r : Row) (query : List Char) (after : Nat) : Option Nat :=
  List.find? (fun g => decide (after ≤ g) &&
      query.isPrefixOf (((graphemeSegments r.string).drop g).flatten))
    (List.range (graphemeSegments r.string).length)

/-- `Position` from `src/editor.rs`. -/
structure Position where
  x : Nat
  y : Nat
  deriving DecidableEq

/-- The terminal size exposed by the external `Terminal` collaborator. -/
structure TermSize where
  width : Nat
  height : Nat
  deriving DecidableEq

/-- Modelled from the spec: the Buffer (`Document`, `src/document.rs` is not
among the provided sources) is an ordered sequence of Lines plus a dirty flag;
the associated file path plays no role in any claim and is omitted. -/
structure Document where
  rows : List Row
  dirty : Bool
  deriving DecidableEq

/-- Modelled from the spec: `row(y)` is an optional reference to Line `y`. -/
def Document.row (d : Document) (y : Nat) : Option Row :=
  d.rows.get? y

/-- Modelled from the spec: `length()` is the row count (named `len` as in the
Rust call sites `self.document.len()`). -/
def Document.len (d : Document) : Nat :=
  d.rows.length

/-- Modelled from the spec: dirty-flag accessor used by `process_kepress`. -/
def Document.is_dirty (d : Document) : Bool :=
  d.dirty

/-- Modelled from the spec: `insert(position, character)` — a newline splits
the Line at `position.y` at column `position.x`, inserting the suffix as a new
Line immediately after; otherwise it delegates to `Line.insert` on that row.
Marks dirty.  The spec leaves a row index past the end unspecified; following
the construction-on-demand reading, a fresh row holding the input is appended
there. -/
def Document.insert (d : Document) (p : Position) (c : Char) : Document :=
  if c = '\n' then
    match d.rows.get? p.y with
    | some r =>
      { rows := d.rows.take p.y ++ [(r.split p.x).1, (r.split p.x).2]
          ++ d.rows.drop (p.y + 1), dirty := true }
    | Option.none => { rows := d.rows ++ [Row.fromStr []], dirty := true }
  else
    match d.rows.get? p.y with
    | some r => { rows := d.rows.set p.y (r.insert p.x c), dirty := true }
    | Option.none => { rows := d.rows ++ [Row.fromStr [c]], dirty := true }

/-- Modelled from the spec: `delete(position)` — deleting at end-of-line with a
following row merges that row in and removes it, otherwise it delegates to
`Line.delete`; marks dirty.  A row index past the end leaves the buffer
unchanged. -/
def Document.delete (d : Document) (p : Position) : Document :=
  match d.rows.get? p.y with
  | Option.none => d
  | some r =>
    if p.x = r.len ∧ p.y + 1 < d.rows.length then
      match d.rows.get? (p.y + 1) with
      | some nextRow =>
        { rows := (d.rows.set p.y (r.append nextRow)).eraseIdx (p.y + 1)
        , dirty := true }
      | Option.none => d
    else { rows := d.rows.set p.y (r.delete p.x), dirty := true }

/-- `termion::event::Key`, restricted to the variants `process_kepress`
distinguishes. -/
inductive Key where
  | Char : Char → Key
  | Ctrl : Char → Key
  | Up
  | Down
  | Left
  | Right
  | PageUp
  | PageDown
  | Home
  | End
  | Backspace
  | Delete
  | Esc
  deriving DecidableEq

/-- `QUIT_TIMES` from `src/editor.rs`. -/
def QUIT_TIMES : Nat := 2

/-- `Editor` from `src/editor.rs`; the status message keeps only its text (its
`Instant` timestamp is wall-clock state of the external environment). -/
structure Editor where
  document : Document
  should_quit : Bool
  terminal : TermSize
  cursor_position : Position
  offset : Position
  status_message : String
  quit_times : Nat
  deriving DecidableEq

/-- The `if let Some(row) ... row.len() else 0` idiom of `move_cursor`. -/
def rowLenAt (d : Document) (y : Nat) : Nat :=
  match d.row y with
  | some row => row.len
  | Option.none => 0

/-- `Editor::move_cursor`.  The `self.document.row(y).unwrap()` in the `Left`
arm can panic, so the function is `Option`-valued, `none` standing for the
panic; every other arm is total. -/
def Editor.move_cursor (e : Editor) (key : Key) : Option Editor :=
  let terminal_height := e.terminal.height
  let x := e.cursor_position.x
  let y := e.cursor_position.y
  let height := e.document.len
  let width := rowLenAt e.document y
  let moved : Option (Nat × Nat) :=
    match key with
    | .Up => some (x, y - 1)
    | .Down => if y < height then some (x, y + 1) else some (x, y)
    | .Left =>
      if x > 0 then some (x - 1, y)
      else if y > 0 then (e.document.row (y - 1)).map (fun row => (row.len, y - 1))
      else some (x, y)
    | .Right =>
      if x < width then some (x + 1, y)
      else if y < height then some (0, y + 1)
      else some (x, y)
    | .PageUp => some (x, if y > terminal_height then y - terminal_height else 0)
    | .PageDown =>
      some (x, if y + terminal_height < height then y + terminal_height else height)
    | .Home => some (0, y)
    | .End => some (width, y)
    | _ => some (x, y)
  moved.map (fun p =>
    let w := rowLenAt e.document p.2
    { e with cursor_position := { x := if p.1 > w then w else p.1, y := p.2 } })

/-- `Editor::scroll`: snap an offset component up to the cursor when the cursor
is before it, advance it by exactly one when the cursor is at or past the far
edge, leave it alone otherwise (`saturating_add` on `usize` is plain `+` on
`Nat`). -/
def Editor.scroll (e : Editor) : Editor :=
  let x := e.cursor_position.x
  let y := e.cursor_position.y
  let width := e.terminal.width
  let height := e.terminal.height
  { e with offset :=
    { y := if y < e.offset.y then y
           else if y ≥ e.offset.y + height then e.offset.y + 1
           else e.offset.y
    , x := if x < e.offset.x then x
           else if x ≥ e.offset.x + width then e.offset.x + 1
           else e.offset.x } }

/-- The warning text built in the `Ctrl('q')` arm of `process_kepress`. -/
def quitWarning (n : Nat) : String :=
  "WARNING! File has unsaved changes. Press Ctrl-Q " ++ toString n
    ++ " more times to quit."

/-- The help text of the `Ctrl('h')` arm. -/
def helpMessage : String :=
  "HELP: Ctrl-F = find | Ctrl-S = save | Ctrl-Q = quit"

/-- The code that runs after the key `match` in `process_kepress`: scroll, then
reset the quit counter and clear the status message when a countdown was in
progress. -/
def Editor.post_keypress (e : Editor) : Editor :=
  if (e.scroll).quit_times < QUIT_TIMES then
    { e.scroll with quit_times := QUIT_TIMES, status_message := "" }
  else e.scroll

/-- `Editor::process_kepress` for one already-read key.  The `Ctrl('q')`
warning arm returns early, skipping `post_keypress`.  `Ctrl('f')` and
`Ctrl('s')` enter the nested prompt loop, which performs terminal I/O through
the external collaborator; they are embedded as unavailable (`none`), and no
claim depends on them.  `none` likewise stands for a panic inside
`move_cursor`. -/
def Editor.process_kepress (e : Editor) (k : Key) : Option Editor :=
  match k with
  | .Ctrl c =>
    if c = 'q' then
      if e.quit_times > 0 && e.document.is_dirty then
        some { e with
          status_message := quitWarning e.quit_times
          quit_times := e.quit_times - 1 }
      else some (Editor.post_keypress { e with should_quit := true })
    else if c = 'f' then Option.none
    else if c = 's' then Option.none
    else if c = 'h' then
      some (Editor.post_keypress { e with status_message := helpMessage })
    else some (Editor.post_keypress e)
  | .Char c =>
    (e.move_cursor .Right).map (fun e1 =>
      Editor.post_keypress
        { e1 with document := e1.document.insert e1.cursor_position c })
  | .Delete =>
    some (Editor.post_keypress
      { e with document := e.document.delete e.cursor_position })
  | .Backspace =>
    if e.cursor_position.x > 0 || e.cursor_position.y > 0 then
      (e.move_cursor .Left).map (fun e1 =>
        Editor.post_keypress
          { e1 with document := e1.document.delete e1.cursor_position })
    else some (Editor.post_keypress e)
  | .Up | .Down | .Left | .Right | .PageUp | .PageDown | .Home | .End =>
    (e.move_cursor k).map Editor.post_keypress
  | _ => some (Editor.post_keypress e)

/-- `Editor::run` driven by a finite keystream: before consuming a key the loop
checks `should_quit` and breaks, exactly as the Rust loop does between
`refresh_screen` and `process_kepress`. -/
def Editor.runKeys : Editor → List Key → Option Editor
  | e, [] => some e
  | e, k :: ks =>
    if e.should_quit then some e
    else (e.process_kepress k).bind (fun e1 => Editor.runKeys e1 ks)

/-- Specification-side counterpart of the `Key::Char` arm, following the spec's
words: insert at the current cursor position first, then move right. -/
def charKeySpec (e : Editor) (c : Char) : Option Editor :=
  Editor.move_cursor
    { e with document := e.document.insert e.cursor_position c } .Right

/-- Model of Rust's `String::truncate(new_len)`: keeps the first `new_len`
bytes; a `new_len` at or past the byte length is a no-op, and a `new_len` that
is not a character boundary panics (`none`). -/
def truncateBytes : List Char → Nat → Option (List Char)
  | _, 0 => some []
  | [], _ + 1 => some []
  | c :: rest, n + 1 =>
    if c.utf8Size ≤ n + 1 then
      (truncateBytes rest (n + 1 - c.utf8Size)).map (fun l => c :: l)
    else Option.none

/-- The `Key::Backspace` arm of the `prompt` loop:
`result.truncate(result.len() - 1)` on a non-empty accumulator, where `len` is
the byte length.  `truncateBytes` models `String::truncate`. -/
def promptBackspace (result : List Char) : Option (List Char) :=
  if result.isEmpty then some result
  else truncateBytes result (utf8Len result - 1)

/-- Number of leading `Ctrl('q')` keys of a keystream. -/
def leadingQuits : List Key → Nat
  | [] => 0
  | k :: ks => if k = Key.Ctrl 'q' then leadingQuits ks + 1 else 0

/-- Whether a keystream contains three consecutive `Ctrl('q')` keys. -/
def hasThreeConsecutiveQuits : List Key → Bool
  | k1 :: k2 :: k3 :: ks =>
    (k1 = Key.Ctrl 'q' && k2 = Key.Ctrl 'q' && k3 = Key.Ctrl 'q')
      || hasThreeConsecutiveQuits (k2 :: k3 :: ks)
  | _ => false

/-- A well-formed cluster: nonempty, and only its first scalar may be
non-combining. -/
def clusterWF (seg : List Char) : Bool :=
  match seg with
  | [] => false
  | _ :: ds => ds.all isCombining

/-- A cluster that begins with a non-combining scalar. -/
def startsNonComb (seg : List Char) : Bool :=
  match seg with
  | [] => false
  | d :: _ => !isCombining d

/-- U+0301, the combining acute accent. -/
def accentChar : Char := Char.ofNat 0x301

/-- A one-line document used as concrete test input. -/
def demoDoc : Document := { rows := [Row.fromStr ['a', 'b']], dirty := false }

/-- A concrete editor state over `demoDoc`. -/
def demoEditor : Editor :=
  { document := demoDoc
  , should_quit := false
  , terminal := { width := 80, height := 24 }
  , cursor_position := { x := 0, y := 0 }
  , offset := { x := 0, y := 0 }
  , status_message := ""
  , quit_times := 2 }

/-- `demoEditor` with unsaved changes. -/
def dirtyEditor : Editor :=
  { demoEditor with document := { demoDoc with dirty := true } }

/-! ### Properties of the grapheme-cluster model -/

theorem graphemeSegments_flatten (l : List Char) :
    (graphemeSegments l).flatten = l := by
  induction l with
  | nil => rfl
  | cons c rest ih =>
    rw [graphemeSegments]
    cases h : graphemeSegments rest with
    | nil =>
      rw [h] at ih
      simp at ih
      simp [ih]
    | cons seg segs =>
      rw [h] at ih
      cases seg with
      | nil =>
        simp at ih ⊢
        exact ih
      | cons d ds =>
        by_cases hc : isCombining d
        · simp only [hc, if_true, List.flatten_cons]
          simp at ih ⊢
          simp [ih]
        · simp only [hc, if_false, Bool.false_eq_true, List.flatten_cons]
          simp at ih ⊢
          simp [ih]

theorem graphemeSegments_eq_nil_iff (l : List Char) :
    graphemeSegments l = [] ↔ l = [] := by
  constructor
  · intro h
    have := graphemeSegments_flatten l
    rw [h] at this
    simpa using this.symm
  · intro h
    subst h
    rfl

theorem graphemeSegments_cons_head (c : Char) (rest : List Char) :
    ∃ ds segs, graphemeSegments (c :: rest) = (c :: ds) :: segs := by
  rw [graphemeSegments]
  cases h : graphemeSegments rest with
  | nil => exact ⟨[], [], rfl⟩
  | cons seg segs =>
    cases seg with
    | nil => exact ⟨[], segs, rfl⟩
    | cons d ds =>
      by_cases hc : isCombining d
      · exact ⟨d :: ds, segs, by simp [hc]⟩
      · exact ⟨[], (d :: ds) :: segs, by simp [hc]⟩

theorem segs_all_clusterWF (l : List Char) :
    (graphemeSegments l).all clusterWF = true := by
  induction l with
  | nil => rfl
  | cons c rest ih =>
    rw [graphemeSegments]
    cases h : graphemeSegments rest with
    | nil => simp [clusterWF]
    | cons seg segs =>
      rw [h] at ih
      cases seg with
      | nil => simp [clusterWF] at ih
      | cons d ds =>
        by_cases hc : isCombining d
        · simp only [hc, if_true]
          simp [clusterWF] at ih ⊢
          exact ⟨⟨hc, ih.1⟩, ih.2⟩
        · simp only [hc, if_false, Bool.false_eq_true]
          simp [clusterWF] at ih ⊢
          exact ⟨ih.1, ih.2⟩

theorem segs_tail_startsNonComb (l : List Char) :
    ((graphemeSegments l).drop 1).all startsNonComb = true := by
  induction l with
  | nil => rfl
  | cons c rest ih =>
    rw [graphemeSegments]
    cases h : graphemeSegments rest with
    | nil => simp
    | cons seg segs =>
      rw [h] at ih
      cases seg with
      | nil => simpa using ih
      | cons d ds =>
        by_cases hc : isCombining d
        · simp only [hc, if_true]
          simpa using ih
        · simp only [hc, if_false, Bool.false_eq_true]
          simp at ih ⊢
          exact ⟨by simp [startsNonComb, hc], ih⟩

theorem segs_all_startsNonComb (l : List Char)
    (h : startsNonComb l = true ∨ l = []) :
    (graphemeSegments l).all startsNonComb = true := by
  cases l with
  | nil => rfl
  | cons c rest =>
    rcases h with h | h
    · obtain ⟨ds, segs, hseg⟩ := graphemeSegments_cons_head c rest
      rw [hseg]
      have htail := segs_tail_startsNonComb (c :: rest)
      rw [hseg] at htail
      simp at htail ⊢
      refine ⟨?_, htail⟩
      simpa [startsNonComb] using h
    · simp at h

theorem segs_cluster_prepend (ds : List Char) :
    ∀ (d : Char) (M : List Char), ds.all isCombining = true →
      (graphemeSegments M).all startsNonComb = true →
      graphemeSegments (d :: (ds ++ M)) = (d :: ds) :: graphemeSegments M := by
  induction ds with
  | nil =>
    intro d M _ hM
    simp only [List.nil_append]
    rw [graphemeSegments]
    cases h : graphemeSegments M with
    | nil => rfl
    | cons seg segs =>
      rw [h] at hM
      cases seg with
      | nil => simp [startsNonComb] at hM
      | cons e es =>
        have : isCombining e = false := by
          simp [startsNonComb] at hM
          simpa using hM.1
        simp [this]
  | cons f ds' ih =>
    intro d M hall hM
    have hf : isCombining f = true := by simp at hall; exact hall.1
    have hds' : ds'.all isCombining = true := by simp at hall; simpa using hall.2
    have step := ih f M hds' hM
    show graphemeSegments (d :: (f :: (ds' ++ M))) = (d :: f :: ds') :: graphemeSegments M
    rw [graphemeSegments, step]
    simp [hf]

theorem segs_reconstruct (SS : List (List Char)) :
    SS.all clusterWF = true → (SS.drop 1).all startsNonComb = true →
    graphemeSegments SS.flatten = SS := by
  induction SS with
  | nil => intro _ _; rfl
  | cons seg rest ih =>
    intro h1 h2
    simp at h1
    cases seg with
    | nil => simp [clusterWF] at h1
    | cons d ds =>
      have hds : ds.all isCombining = true := by
        have := h1.1
        simpa [clusterWF] using this
      have hrest1 : rest.all clusterWF = true := by
        simp
        intro x hx
        exact h1.2 x hx
      have hrestSNC : rest.all startsNonComb = true := by simpa using h2
      have hrest2 : (rest.drop 1).all startsNonComb = true := by
        simp at hrestSNC ⊢
        intro x hx
        exact hrestSNC x (List.mem_of_mem_tail hx)
      have ihr := ih hrest1 hrest2
      have hM : (graphemeSegments rest.flatten).all startsNonComb = true := by
        rw [ihr]; exact hrestSNC
      calc graphemeSegments ((d :: ds) :: rest).flatten
          = graphemeSegments (d :: (ds ++ rest.flatten)) := by simp
        _ = (d :: ds) :: graphemeSegments rest.flatten :=
            segs_cluster_prepend ds d rest.flatten hds hM
        _ = (d :: ds) :: rest := by rw [ihr]

/-- Inserting a non-combining scalar at a cluster boundary inserts a fresh
singleton cluster, provided the boundary is not in front of a leading combining
mark. -/
theorem segs_insert_split (s : List Char) (i : Nat) (c : Char)
    (hc : isCombining c = false)
    (h0 : i = 0 → startsNonComb s = true ∨ s = []) :
    graphemeSegments (((graphemeSegments s).take i).flatten ++ [c]
        ++ ((graphemeSegments s).drop i).flatten)
      = (graphemeSegments s).take i ++ [c] :: (graphemeSegments s).drop i := by
  have hflat : ((graphemeSegments s).take i ++ [c] :: (graphemeSegments s).drop i).flatten
      = ((graphemeSegments s).take i).flatten ++ [c]
        ++ ((graphemeSegments s).drop i).flatten := by
    simp
  rw [← hflat]
  apply segs_reconstruct
  · have hall := segs_all_clusterWF s
    simp [List.all_eq_true] at hall ⊢
    refine ⟨fun x hx => hall x (List.mem_of_mem_take hx), ?_,
      fun x hx => hall x (List.mem_of_mem_drop hx)⟩
    simp [clusterWF]
  · cases i with
    | zero =>
      simp only [List.take_zero, List.nil_append, List.drop_zero, List.drop_one,
        List.tail_cons]
      exact segs_all_startsNonComb s (h0 rfl)
    | succ j =>
      cases hsegs : graphemeSegments s with
      | nil => simp
      | cons seg0 rest =>
        have hrest : rest.all startsNonComb = true := by
          have := segs_tail_startsNonComb s
          rw [hsegs] at this
          simpa using this
        simp only [List.take_succ_cons, List.drop_succ_cons, List.cons_append,
          List.drop_one, List.tail_cons]
        simp [List.all_eq_true] at hrest ⊢
        refine ⟨fun x hx => hrest x (List.mem_of_mem_take hx), ?_,
          fun x hx => hrest x (List.mem_of_mem_drop hx)⟩
        simp [startsNonComb, hc]

/-! ### Claims C3, C4, C8: Row algebra -/

/-- C3 (amended): for a Line with a valid cached length, a character `c` that
is not a combining mark, and a grapheme index `i ≤ length(L)` — where, when
`i = 0`, the content is empty or does not begin with a combining mark —
deleting at `i` after inserting `c` at `i` restores the original content:
`delete(insert(L, i, c), i).content == L.content`. -/
theorem insert_delete_roundtrip (r : Row) (i : Nat) (c : Char)
    (hv : lenValid r)
    (hc : isCombining c = false)
    (h0 : i = 0 → startsNonComb r.string = true ∨ r.string = [])
    (hi : i ≤ r.len) :
    ((r.insert i c).delete i).string = r.string := by
  have hn : r.len = (graphemeSegments r.string).length := hv
  have hiN : i ≤ (graphemeSegments r.string).length := hn ▸ hi
  have hstr : (r.insert i c).string
      = ((graphemeSegments r.string).take i).flatten ++ [c]
        ++ ((graphemeSegments r.string).drop i).flatten := by
    unfold Row.insert
    split
    · rename_i hge
      have : (graphemeSegments r.string).length ≤ i := by omega
      rw [List.take_of_length_le this, List.drop_eq_nil_of_le this]
      simp [Row.update_len, graphemeSegments_flatten]
    · simp [Row.update_len]
  have hsegs : graphemeSegments (r.insert i c).string
      = (graphemeSegments r.string).take i
        ++ [c] :: (graphemeSegments r.string).drop i := by
    rw [hstr]
    exact segs_insert_split r.string i c hc h0
  have htakelen : ((graphemeSegments r.string).take i).length = i := by
    simp [List.length_take]; omega
  have hlen : (r.insert i c).len = (graphemeSegments r.string).length + 1 := by
    have : (r.insert i c).len = (graphemeSegments (r.insert i c).string).length := by
      unfold Row.insert
      split <;> simp [Row.update_len]
    rw [this, hsegs]
    simp [List.length_take]
    omega
  unfold Row.delete
  split
  · rename_i hge
    rw [hlen] at hge
    omega
  · rw [Row.update_len]
    simp only [hsegs]
    rw [List.take_left' htakelen]
    have hdrop : ((graphemeSegments r.string).take i
        ++ [c] :: (graphemeSegments r.string).drop i).drop (i + 1)
        = (graphemeSegments r.string).drop i := by
      have h1 : ((graphemeSegments r.string).take i
          ++ [c] :: (graphemeSegments r.string).drop i).drop i
          = [c] :: (graphemeSegments r.string).drop i := List.drop_left' htakelen
      calc ((graphemeSegments r.string).take i
          ++ [c] :: (graphemeSegments r.string).drop i).drop (i + 1)
          = (((graphemeSegments r.string).take i
            ++ [c] :: (graphemeSegments r.string).drop i).drop i).drop 1 := by
            rw [List.drop_drop]
        _ = ([c] :: (graphemeSegments r.string).drop i).drop 1 := by rw [h1]
        _ = (graphemeSegments r.string).drop i := by simp
    rw [hdrop]
    show (((graphemeSegments r.string).take i).flatten
      ++ ((graphemeSegments r.string).drop i).flatten) = r.string
    rw [← List.flatten_append, List.take_append_drop, graphemeSegments_flatten]

/-- C3 witness: a concrete instance of the amended round-trip. -/
theorem insert_delete_roundtrip_witness :
    (((Row.fromStr ['a', 'b']).insert 1 'x').delete 1).string
      = (Row.fromStr ['a', 'b']).string :=
  insert_delete_roundtrip (Row.fromStr ['a', 'b']) 1 'x' (by decide) (by decide)
    (by decide) (by decide)

/-- C3 counterexample: the claim as stated fails when the inserted character
is a combining mark — inserting U+0301 at index 1 of `"a"` (an index within
bounds, `1 ≤ length`) merges into the existing cluster, so the following
delete at index 1 is a no-op and the content keeps the accent. -/
theorem insert_delete_combining_counterexample :
    1 ≤ (Row.fromStr ['a']).len ∧
    (((Row.fromStr ['a']).insert 1 accentChar).delete 1).string
      ≠ (Row.fromStr ['a']).string := by
  constructor
  · decide
  · decide

/-- C4: `split(at)` is a lossless partition for every Line and every split
index: appending the returned suffix Line back onto the truncated prefix Line
reproduces the original content. -/
theorem split_append_roundtrip (r : Row) (i : Nat) :
    (((r.split i).1).append (r.split i).2).string = r.string := by
  show (((graphemeSegments r.string).take i).flatten
      ++ ((graphemeSegments r.string).drop i).flatten) = r.string
  rw [← List.flatten_append, List.take_append_drop, graphemeSegments_flatten]

/-- C8: immediately after construction, insert, delete, append, or split, the
cached grapheme count equals the true grapheme count of the content (for
delete, whose out-of-range branch leaves the row untouched, given that the
input row's cache was already valid). -/
theorem cached_len_invariant :
    (∀ s, lenValid (Row.fromStr s))
    ∧ (∀ (r : Row) (i : Nat) (c : Char), lenValid (r.insert i c))
    ∧ (∀ r : Row, lenValid r → ∀ i : Nat, lenValid (r.delete i))
    ∧ (∀ r o : Row, lenValid (r.append o))
    ∧ (∀ (r : Row) (i : Nat), lenValid ((r.split i).1) ∧ lenValid ((r.split i).2)) := by
  refine ⟨fun s => rfl, fun r i c => ?_, fun r hr i => ?_, fun r o => rfl,
    fun r i => ⟨rfl, rfl⟩⟩
  · unfold Row.insert
    split <;> rfl
  · unfold Row.delete
    split
    · exact hr
    · rfl

/-- C8 witness: concrete instances, including the delete branch that needs the
validity hypothesis. -/
theorem cached_len_invariant_witness :
    lenValid ((Row.fromStr ['a', accentChar, 'b']).delete 5)
    ∧ lenValid ((Row.fromStr ['a']).insert 0 'x') :=
  ⟨cached_len_invariant.2.2.1 (Row.fromStr ['a', accentChar, 'b']) (by decide) 5,
   cached_len_invariant.2.1 (Row.fromStr ['a']) 0 'x'⟩

/-! ### Claim C1: `Row::find` -/

/-- C1: the claim — `find` returns the grapheme index of the first occurrence
of the query at or after the given grapheme offset, and nothing when there is
no such occurrence — fails on the code.  On the row `"ab"` with query `"a"`
and offset 1 there is no occurrence at or after offset 1 (the spec-side
`rowFindSpec` yields `none`), yet the code byte-searches the whole content,
finds byte 0, and maps it through the cluster offsets of the suffix, reporting
a match at index 0. -/
theorem find_ignores_after_bug :
    (Row.fromStr ['a', 'b']).find ['a'] 1 = some 0
    ∧ rowFindSpec (Row.fromStr ['a', 'b']) ['a'] 1 = Option.none := by
  constructor
  · decide
  · decide

/-! ### Claim C9: prompt Backspace -/

/-- C9: the claim — Backspace in the prompt removes exactly the last
user-perceived character for any input, including multi-byte characters — fails
on the code.  `result.truncate(result.len() - 1)` operates on bytes: on the
one-character text `"é"` (two UTF-8 bytes) the new length 1 is not a character
boundary and `String::truncate` panics (`none`), while the empty and the
all-single-byte cases behave as claimed. -/
theorem prompt_backspace_bug :
    promptBackspace [Char.ofNat 0xE9] = Option.none
    ∧ promptBackspace ['a', 'b'] = some ['a']
    ∧ promptBackspace [] = some [] := by
  refine ⟨by decide, by decide, by decide⟩

/-! ### Claim C6: `Editor::scroll` -/

/-- C6: each `scroll()` call snaps the vertical offset to cursor y when the
cursor is above it, advances it by exactly one when cursor y is at or past
offset + viewport height, and leaves it unchanged otherwise; the horizontal
offset follows the same rule with cursor x and the viewport width. -/
theorem scroll_policy (e : Editor) :
    (e.scroll).offset.y
      = (if e.cursor_position.y < e.offset.y then e.cursor_position.y
         else if e.cursor_position.y ≥ e.offset.y + e.terminal.height then
           e.offset.y + 1
         else e.offset.y)
    ∧ (e.scroll).offset.x
      = (if e.cursor_position.x < e.offset.x then e.cursor_position.x
         else if e.cursor_position.x ≥ e.offset.x + e.terminal.width then
           e.offset.x + 1
         else e.offset.x) :=
  ⟨rfl, rfl⟩

/-- `scroll` followed by the quit-counter reset touches neither the document
nor the cursor. -/
theorem post_keypress_document (e : Editor) :
    (Editor.post_keypress e).document = e.document := by
  unfold Editor.post_keypress
  split <;> rfl

theorem post_keypress_cursor (e : Editor) :
    (Editor.post_keypress e).cursor_position = e.cursor_position := by
  unfold Editor.post_keypress
  split <;> rfl

theorem post_keypress_should_quit (e : Editor) :
    (Editor.post_keypress e).should_quit = e.should_quit := by
  unfold Editor.post_keypress
  split <;> rfl

theorem post_keypress_quit_times (e : Editor) (h : e.quit_times ≤ QUIT_TIMES) :
    (Editor.post_keypress e).quit_times = QUIT_TIMES := by
  unfold Editor.post_keypress
  split
  · rfl
  · rename_i hlt
    have : (e.scroll).quit_times = e.quit_times := rfl
    rw [this]
    rw [this] at hlt
    omega

/-! ### Claim C5: the cursor-clamping invariant of `move_cursor` -/

/-- C5: after any completed `move_cursor` call, for any key and any document,
the resulting cursor x is at most the length of the row at the resulting
cursor y, where a row index beyond the document end counts as length 0. -/
theorem move_cursor_clamps_x (e : Editor) (k : Key) (e' : Editor)
    (h : e.move_cursor k = some e') :
    e'.cursor_position.x ≤ rowLenAt e'.document e'.cursor_position.y := by
  unfold Editor.move_cursor at h
  rw [Option.map_eq_some'] at h
  obtain ⟨p, _, hp⟩ := h
  subst hp
  simp only
  split <;> simp_all

/-- C5 witness: moving right from the concrete demo state. -/
theorem move_cursor_clamps_x_witness :
    ({ demoEditor with cursor_position := { x := 1, y := 0 } }
        : Editor).cursor_position.x
      ≤ rowLenAt ({ demoEditor with cursor_position := { x := 1, y := 0 } }
          : Editor).document
        ({ demoEditor with cursor_position := { x := 1, y := 0 } }
          : Editor).cursor_position.y :=
  move_cursor_clamps_x demoEditor Key.Right
    { demoEditor with cursor_position := { x := 1, y := 0 } } (by decide)

/-! ### Claim C10: Backspace at the origin -/

/-- C10: with the cursor at column 0 of row 0, Backspace performs no move and
no delete — the document content, the cursor position, and the dirty state are
unchanged. -/
theorem backspace_at_origin_noop (e : Editor) (e' : Editor)
    (hx : e.cursor_position.x = 0) (hy : e.cursor_position.y = 0)
    (h : e.process_kepress Key.Backspace = some e') :
    e'.document = e.document ∧ e'.cursor_position = e.cursor_position := by
  simp only [Editor.process_kepress] at h
  rw [hx, hy] at h
  simp at h
  subst h
  exact ⟨post_keypress_document e, post_keypress_cursor e⟩

/-- C10 witness: the demo state has its cursor at the origin. -/
theorem backspace_at_origin_noop_witness :
    ∃ e' : Editor, demoEditor.process_kepress Key.Backspace = some e'
      ∧ e'.document = demoEditor.document
      ∧ e'.cursor_position = demoEditor.cursor_position := by
  refine ⟨Editor.post_keypress demoEditor, by decide, ?_⟩
  exact backspace_at_origin_noop demoEditor (Editor.post_keypress demoEditor)
    (by decide) (by decide) (by decide)

/-! ### Claim C2: the printable-character key -/

/-- C2 counterexample: the claim — insert at the current cursor position, then
move right — fails at a concrete state.  With document `["ab"]` and cursor
(0,0), typing `x` under the code yields `"axb"` (the handler moves right
first, then inserts at the moved position), while insert-then-move-right
(`charKeySpec`) would yield `"xab"`. -/
theorem char_key_order_counterexample :
    (demoEditor.process_kepress (Key.Char 'x')).map
        (fun e => e.document.rows.map Row.string)
      = some [['a', 'x', 'b']]
    ∧ (charKeySpec demoEditor 'x').map (fun e => e.document.rows.map Row.string)
      = some [['x', 'a', 'b']]
    ∧ (['a', 'x', 'b'] : List Char) ≠ ['x', 'a', 'b'] := by
  refine ⟨by decide, by decide, by decide⟩

/-- C2 (amended): for every printable-character key press, the controller
first moves the cursor one position to the right (by the Right-arrow rule) and
then inserts the character into the document at the resulting cursor position;
the insertion leaves the cursor where the move put it. -/
theorem char_key_moves_then_inserts (e : Editor) (c : Char) (e1 e' : Editor)
    (hmv : e.move_cursor Key.Right = some e1)
    (h : e.process_kepress (Key.Char c) = some e') :
    e'.document = e1.document.insert e1.cursor_position c
    ∧ e'.cursor_position = e1.cursor_position := by
  simp only [Editor.process_kepress] at h
  rw [hmv] at h
  simp at h
  subst h
  rw [post_keypress_document, post_keypress_cursor]
  exact ⟨rfl, rfl⟩

/-! ### Claim C7: quit confirmation -/

/-- A completed `move_cursor` changes only the cursor position. -/
theorem move_cursor_shape (e : Editor) (k : Key) (e' : Editor)
    (h : e.move_cursor k = some e') :
    e'.document = e.document ∧ e'.should_quit = e.should_quit
    ∧ e'.quit_times = e.quit_times := by
  unfold Editor.move_cursor at h
  rw [Option.map_eq_some'] at h
  obtain ⟨p, _, hp⟩ := h
  subst hp
  exact ⟨rfl, rfl, rfl⟩

/-- `Document.insert` always marks the buffer dirty. -/
theorem document_insert_dirty (d : Document) (p : Position) (c : Char) :
    (d.insert p c).dirty = true := by
  unfold Document.insert
  split <;> split <;> rfl

/-- `Document.delete` never clears the dirty flag. -/
theorem document_delete_preserves_dirty (d : Document) (p : Position)
    (h : d.dirty = true) : (d.delete p).dirty = true := by
  unfold Document.delete
  split
  · exact h
  · split
    · split
      · rfl
      · exact h
    · rfl

/-- The warning arm of `Ctrl('q')`: with a positive counter and a dirty
buffer, the handler returns early with the warning shown and the counter
decremented. -/
theorem step_quit_warn (e : Editor) (h1 : 0 < e.quit_times)
    (h2 : e.document.dirty = true) :
    e.process_kepress (Key.Ctrl 'q')
      = some { e with status_message := quitWarning e.quit_times
                      quit_times := e.quit_times - 1 } := by
  unfold Editor.process_kepress
  simp [Document.is_dirty, h1, h2]

/-- Any key other than `Ctrl('q')` that completes resets the quit counter,
leaves `should_quit` alone, and never cleans a dirty buffer. -/
theorem step_nonquit (e : Editor) (k : Key) (e' : Editor)
    (hk : k ≠ Key.Ctrl 'q') (hq : e.quit_times ≤ QUIT_TIMES)
    (h : e.process_kepress k = some e') :
    e'.quit_times = QUIT_TIMES ∧ e'.should_quit = e.should_quit
    ∧ (e.document.dirty = true → e'.document.dirty = true) := by
  cases k with
  | Ctrl c =>
    have hc : c ≠ 'q' := by
      intro hcq
      exact hk (by rw [hcq])
    simp only [Editor.process_kepress] at h
    rw [if_neg hc] at h
    by_cases hf : c = 'f'
    · rw [if_pos hf] at h
      exact absurd h (by simp)
    · rw [if_neg hf] at h
      by_cases hs : c = 's'
      · rw [if_pos hs] at h
        exact absurd h (by simp)
      · rw [if_neg hs] at h
        by_cases hh : c = 'h'
        · rw [if_pos hh] at h
          simp at h
          subst h
          refine ⟨post_keypress_quit_times _ hq, post_keypress_should_quit _, ?_⟩
          intro hd
          rw [post_keypress_document]
          exact hd
        · rw [if_neg hh] at h
          simp at h
          subst h
          refine ⟨post_keypress_quit_times _ hq, post_keypress_should_quit _, ?_⟩
          intro hd
          rw [post_keypress_document]
          exact hd
  | Char c =>
    simp only [Editor.process_kepress] at h
    rw [Option.map_eq_some'] at h
    obtain ⟨e1, hmv, hp⟩ := h
    obtain ⟨hdoc, hsq, hqt⟩ := move_cursor_shape e Key.Right e1 hmv
    subst hp
    refine ⟨post_keypress_quit_times _ (by simp [hqt]; omega),
      by rw [post_keypress_should_quit]; exact hsq, ?_⟩
    intro _
    rw [post_keypress_document]
    exact document_insert_dirty e1.document e1.cursor_position c
  | Delete =>
    simp only [Editor.process_kepress] at h
    simp at h
    subst h
    refine ⟨post_keypress_quit_times _ hq, post_keypress_should_quit _, ?_⟩
    intro hd
    rw [post_keypress_document]
    exact document_delete_preserves_dirty e.document e.cursor_position hd
  | Backspace =>
    simp only [Editor.process_kepress] at h
    split at h
    · rw [Option.map_eq_some'] at h
      obtain ⟨e1, hmv, hp⟩ := h
      obtain ⟨hdoc, hsq, hqt⟩ := move_cursor_shape e Key.Left e1 hmv
      subst hp
      refine ⟨post_keypress_quit_times _ (by simp [hqt]; omega),
        by rw [post_keypress_should_quit]; exact hsq, ?_⟩
      intro hd
      rw [post_keypress_document]
      exact document_delete_preserves_dirty e1.document e1.cursor_position
        (by rw [hdoc]; exact hd)
    · simp at h
      subst h
      refine ⟨post_keypress_quit_times _ hq, post_keypress_should_quit _, ?_⟩
      intro hd
      rw [post_keypress_document]
      exact hd
  | Esc =>
    simp only [Editor.process_kepress] at h
    simp at h
    subst h
    refine ⟨post_keypress_quit_times _ hq, post_keypress_should_quit _, ?_⟩
    intro hd
    rw [post_keypress_document]
    exact hd
  | Up =>
    simp only [Editor.process_kepress] at h
    rw [Option.map_eq_some'] at h
    obtain ⟨e1, hmv, hp⟩ := h
    obtain ⟨hdoc, hsq, hqt⟩ := move_cursor_shape e Key.Up e1 hmv
    subst hp
    refine ⟨post_keypress_quit_times _ (by simp [hqt]; omega),
      by rw [post_keypress_should_quit]; exact hsq, ?_⟩
    intro hd
    rw [post_keypress_document, hdoc]
    exact hd
  | Down =>
    simp only [Editor.process_kepress] at h
    rw [Option.map_eq_some'] at h
    obtain ⟨e1, hmv, hp⟩ := h
    obtain ⟨hdoc, hsq, hqt⟩ := move_cursor_shape e Key.Down e1 hmv
    subst hp
    refine ⟨post_keypress_quit_times _ (by simp [hqt]; omega),
      by rw [post_keypress_should_quit]; exact hsq, ?_⟩
    intro hd
    rw [post_keypress_document, hdoc]
    exact hd
  | Left =>
    simp only [Editor.process_kepress] at h
    rw [Option.map_eq_some'] at h
    obtain ⟨e1, hmv, hp⟩ := h
    obtain ⟨hdoc, hsq, hqt⟩ := move_cursor_shape e Key.Left e1 hmv
    subst hp
    refine ⟨post_keypress_quit_times _ (by simp [hqt]; omega),
      by rw [post_keypress_should_quit]; exact hsq, ?_⟩
    intro hd
    rw [post_keypress_document, hdoc]
    exact hd
  | Right =>
    simp only [Editor.process_kepress] at h
    rw [Option.map_eq_some'] at h
    obtain ⟨e1, hmv, hp⟩ := h
    obtain ⟨hdoc, hsq, hqt⟩ := move_cursor_shape e Key.Right e1 hmv
    subst hp
    refine ⟨post_keypress_quit_times _ (by simp [hqt]; omega),
      by rw [post_keypress_should_quit]; exact hsq, ?_⟩
    intro hd
    rw [post_keypress_document, hdoc]
    exact hd
  | PageUp =>
    simp only [Editor.process_kepress] at h
    rw [Option.map_eq_some'] at h
    obtain ⟨e1, hmv, hp⟩ := h
    obtain ⟨hdoc, hsq, hqt⟩ := move_cursor_shape e Key.PageUp e1 hmv
    subst hp
    refine ⟨post_keypress_quit_times _ (by simp [hqt]; omega),
      by rw [post_keypress_should_quit]; exact hsq, ?_⟩
    intro hd
    rw [post_keypress_document, hdoc]
    exact hd
  | PageDown =>
    simp only [Editor.process_kepress] at h
    rw [Option.map_eq_some'] at h
    obtain ⟨e1, hmv, hp⟩ := h
    obtain ⟨hdoc, hsq, hqt⟩ := move_cursor_shape e Key.PageDown e1 hmv
    subst hp
    refine ⟨post_keypress_quit_times _ (by simp [hqt]; omega),
      by rw [post_keypress_should_quit]; exact hsq, ?_⟩
    intro hd
    rw [post_keypress_document, hdoc]
    exact hd
  | Home =>
    simp only [Editor.process_kepress] at h
    rw [Option.map_eq_some'] at h
    obtain ⟨e1, hmv, hp⟩ := h
    obtain ⟨hdoc, hsq, hqt⟩ := move_cursor_shape e Key.Home e1 hmv
    subst hp
    refine ⟨post_keypress_quit_times _ (by simp [hqt]; omega),
      by rw [post_keypress_should_quit]; exact hsq, ?_⟩
    intro hd
    rw [post_keypress_document, hdoc]
    exact hd
  | End =>
    simp only [Editor.process_kepress] at h
    rw [Option.map_eq_some'] at h
    obtain ⟨e1, hmv, hp⟩ := h
    obtain ⟨hdoc, hsq, hqt⟩ := move_cursor_shape e Key.End e1 hmv
    subst hp
    refine ⟨post_keypress_quit_times _ (by simp [hqt]; omega),
      by rw [post_keypress_should_quit]; exact hsq, ?_⟩
    intro hd
    rw [post_keypress_document, hdoc]
    exact hd

/-- Dropping the first key cannot create three consecutive quits. -/
theorem hasThree_tail (k : Key) (ks : List Key)
    (h : hasThreeConsecutiveQuits (k :: ks) = false) :
    hasThreeConsecutiveQuits ks = false := by
  cases ks with
  | nil => rfl
  | cons k2 ks2 =>
    cases ks2 with
    | nil => rfl
    | cons k3 ks3 =>
      unfold hasThreeConsecutiveQuits at h
      simp at h
      simpa using h.2

/-- Without three consecutive quits, at most two quits lead the stream. -/
theorem leadingQuits_le_two (ks : List Key)
    (h : hasThreeConsecutiveQuits ks = false) : leadingQuits ks ≤ 2 := by
  cases ks with
  | nil => simp [leadingQuits]
  | cons k1 ks1 =>
    by_cases h1 : k1 = Key.Ctrl 'q'
    · cases ks1 with
      | nil => simp [leadingQuits, h1]
      | cons k2 ks2 =>
        by_cases h2 : k2 = Key.Ctrl 'q'
        · cases ks2 with
          | nil => simp [leadingQuits, h1, h2]
          | cons k3 ks3 =>
            by_cases h3 : k3 = Key.Ctrl 'q'
            · unfold hasThreeConsecutiveQuits at h
              simp [h1, h2, h3] at h
            · simp [leadingQuits, h1, h2, h3]
        · simp [leadingQuits, h1, h2]
    · simp [leadingQuits, h1]

/-- Invariant behind the quit-confirmation property: starting dirty and
running, with the quit counter at least covering the leading run of quit keys
and no three consecutive quit keys in the stream, the loop never sets
`should_quit`. -/
theorem run_no_three_aux (ks : List Key) :
    ∀ e : Editor, e.document.dirty = true → e.should_quit = false →
    e.quit_times ≤ QUIT_TIMES → hasThreeConsecutiveQuits ks = false →
    leadingQuits ks ≤ e.quit_times →
    ∀ e', Editor.runKeys e ks = some e' → e'.should_quit = false := by
  induction ks with
  | nil =>
    intro e _ hsq _ _ _ e' h
    unfold Editor.runKeys at h
    simp at h
    subst h
    exact hsq
  | cons k ks ih =>
    intro e hd hsq hqt h3 hlead e' h
    unfold Editor.runKeys at h
    rw [hsq] at h
    simp only [Bool.false_eq_true, if_false] at h
    rw [Option.bind_eq_some] at h
    obtain ⟨e1, hstep, hrun⟩ := h
    by_cases hk : k = Key.Ctrl 'q'
    · subst hk
      have hleadk : leadingQuits ks + 1 ≤ e.quit_times := by
        simpa [leadingQuits] using hlead
      have hpos : 0 < e.quit_times := by omega
      rw [step_quit_warn e hpos hd] at hstep
      simp at hstep
      subst hstep
      refine ih { e with status_message := quitWarning e.quit_times
                         quit_times := e.quit_times - 1 }
        hd hsq ?_ (hasThree_tail _ _ h3) ?_ e' hrun
      · have hqt2 : e.quit_times ≤ 2 := hqt
        show e.quit_times - 1 ≤ 2
        omega
      · show leadingQuits ks ≤ e.quit_times - 1
        omega
    · obtain ⟨hqt1, hsq1, hd1⟩ := step_nonquit e k e1 hk hqt hstep
      exact ih e1 (hd1 hd) (by rw [hsq1]; exact hsq) (by rw [hqt1])
        (hasThree_tail _ _ h3)
        (by rw [hqt1]; exact leadingQuits_le_two ks (hasThree_tail _ _ h3))
        e' hrun

/-- C7: with the quit threshold 2 and a dirty document, the run loop never
terminates before three consecutive Ctrl-Q presses (a keystream without three
consecutive quit keys leaves the editor running); each of the first two
presses decrements the counter and shows the warning while the editor keeps
running; and any intervening non-quit key press resets the remaining count to
the threshold 2. -/
theorem quit_requires_three_consecutive :
    (∀ (e : Editor) (ks : List Key) (e' : Editor),
      e.document.dirty = true → e.should_quit = false →
      e.quit_times = QUIT_TIMES → hasThreeConsecutiveQuits ks = false →
      Editor.runKeys e ks = some e' → e'.should_quit = false)
    ∧ (∀ e e' : Editor,
      e.document.dirty = true → e.should_quit = false → e.quit_times = 2 →
      e.process_kepress (Key.Ctrl 'q') = some e' →
      e'.quit_times = 1 ∧ e'.should_quit = false
        ∧ e'.status_message = quitWarning 2)
    ∧ (∀ e e' : Editor,
      e.document.dirty = true → e.should_quit = false → e.quit_times = 1 →
      e.process_kepress (Key.Ctrl 'q') = some e' →
      e'.quit_times = 0 ∧ e'.should_quit = false
        ∧ e'.status_message = quitWarning 1)
    ∧ (∀ (e : Editor) (k : Key) (e' : Editor),
      k ≠ Key.Ctrl 'q' → e.quit_times ≤ QUIT_TIMES →
      e.process_kepress k = some e' → e'.quit_times = QUIT_TIMES) := by
  refine ⟨?_, ?_, ?_, ?_⟩
  · intro e ks e' hd hsq hqt h3 hrun
    exact run_no_three_aux ks e hd hsq (by rw [hqt]) h3
      (by rw [hqt]; exact leadingQuits_le_two ks h3) e' hrun
  · intro e e' hd hsq hqt h
    rw [step_quit_warn e (by omega) hd] at h
    simp at h
    subst h
    exact ⟨by simp [hqt], hsq, by rw [hqt]⟩
  · intro e e' hd hsq hqt h
    rw [step_quit_warn e (by omega) hd] at h
    simp at h
    subst h
    exact ⟨by simp [hqt], hsq, by rw [hqt]⟩
  · intro e k e' hk hqt h
    exact (step_nonquit e k e' hk hqt h).1

/-- C7 witness: from the concrete dirty state, the stream quit, `a`, quit,
quit (no three consecutive quits) leaves the editor running, and the first
quit press decrements the counter to 1 while showing the warning. -/
theorem quit_requires_three_consecutive_witness :
    ∃ e' : Editor,
      Editor.runKeys dirtyEditor
          [Key.Ctrl 'q', Key.Char 'a', Key.Ctrl 'q', Key.Ctrl 'q'] = some e'
      ∧ e'.should_quit = false
      ∧ ∃ e1 : Editor, dirtyEditor.process_kepress (Key.Ctrl 'q') = some e1
          ∧ e1.quit_times = 1 ∧ e1.should_quit = false
          ∧ e1.status_message = quitWarning 2 := by
  cases hrun : Editor.runKeys dirtyEditor
      [Key.Ctrl 'q', Key.Char 'a', Key.Ctrl 'q', Key.Ctrl 'q'] with
  | none => exact absurd hrun (by decide)
  | some e' =>
    cases hstep : dirtyEditor.process_kepress (Key.Ctrl 'q') with
    | none => exact absurd hstep (by decide)
    | some e1 =>
      refine ⟨e', rfl, ?_, e1, rfl, ?_⟩
      · exact quit_requires_three_consecutive.1 dirtyEditor _ e' (by decide)
          (by decide) (by decide) (by decide) hrun
      · exact quit_requires_three_consecutive.2.1 dirtyEditor e1 (by decide)
          (by decide) (by decide) hstep

/-- C2 witness: the amended behavior at the concrete demo state. -/
theorem char_key_moves_then_inserts_witness :
    ∃ e' : Editor, demoEditor.process_kepress (Key.Char 'x') = some e'
      ∧ e'.document
          = (({ demoEditor with cursor_position := { x := 1, y := 0 } }
              : Editor).document.insert { x := 1, y := 0 } 'x')
      ∧ e'.cursor_position = ({ x := 1, y := 0 } : Position) := by
  refine ⟨Editor.post_keypress
    { demoEditor with
        cursor_position := { x := 1, y := 0 }
        document := demoEditor.document.insert { x := 1, y := 0 } 'x' },
    by decide, ?_⟩
  exact char_key_moves_then_inserts demoEditor 'x'
    { demoEditor with cursor_position := { x := 1, y := 0 } } _ (by decide) (by decide)

end Loop
